import Mathlib

/-!
Verification of the Directory Store of the edu-people repository
(src/lib/model.js), a DynamoDB-backed person/permission directory.

Shallow embedding notes.

The backing store (one DynamoDB table whose single-attribute primary key is
the attribute `ucinetid`) is modelled as a list of typed records in scan
order; point lookup is `List.find?` on the key attribute, a put replaces the
record holding the same key (or appends a fresh one), and the two update
expressions that model.js builds (`set #services.#serviceName = :permission`
and `remove #services.#serviceName`) are modelled as the corresponding
targeted edits of the nested `_services` map, which is kept as an
association list from service name to Permission.

Behaviour of the platform that the source relies on and that the model
reproduces:
  - the aws-sdk v2 DocumentClient silently strips attributes whose value is
    the JS `undefined` from a put item, so a missing input field yields a
    record in which that attribute is absent (`none` here), not a null
    placeholder;
  - DynamoDB rejects a malformed update request: an UpdateExpression whose
    set clause lists no actions (the source builds the string `set ` when
    zero updatable fields are provided) and an empty ExpressionAttributeValues
    map are both ValidationExceptions, surfaced here as
    `DbError.backendValidation`;
  - an UpdateItem on a key that holds no record creates the record;
  - a scan response may be truncated: the backend hands back at most one
    page of raw items (filtered server side by the FilterExpression) plus a
    LastEvaluatedKey continuation cursor whenever raw items remain beyond
    the page, and model.js re-issues the scan with ExclusiveStartKey until
    no cursor remains;
  - JS string truthiness: `undefined` and the empty string are falsy, so
    the conditional spreads in createPerson drop exactly those optional
    fields (`truthy` below);
  - calling `.toLowerCase()` on a missing id throws a TypeError before any
    backend call (`DbError.typeError`).

The opaque `settings` payload of a Permission is a type parameter: the
store never inspects it, which the parametricity of every definition makes
exact. Lowercasing is `toLowerStr`, a structurally recursive twin of
`String.toLower` (JS `toLowerCase` restricted to ASCII ids), so that every
definition evaluates by kernel reduction.
-/

namespace EduPeople

/-- ASCII lowercasing of an id, elementwise on the character list; models
the `.toLowerCase()` calls of model.js on a kernel-reducible definition. -/
def toLowerStr (s : String) : String :=
  String.mk (s.data.map Char.toLower)

/-- Errors a Directory Store call can reject with: the deliberate
not-found throw of setPermission and removePermission, a DynamoDB
ValidationException for a malformed request, and a JS TypeError raised
before any backend call. -/
inductive DbError where
  | notFound (ucinetid : String)
  | backendValidation
  | typeError
deriving DecidableEq, Repr

/-- A Permission as stored nested inside `_services`: the full value that
setPermission writes, service name component included. -/
structure Permission (σ : Type) where
  service : String
  roles : List String
  settings : σ
deriving DecidableEq, Repr

/-- One row of the edu-people table: the key attribute `ucinetid`, the
scalar attributes (absent attributes are `none`), and the nested
`_services` map as an association list keyed by service name. -/
structure PersonRecord (σ : Type) where
  ucinetid : String
  firstName : Option String
  lastName : Option String
  middleName : Option String
  email : Option String
  photo : Option String
  services : List (String × Permission σ)
deriving DecidableEq, Repr

/-- The table contents in scan order. -/
abbrev Table (σ : Type) := List (PersonRecord σ)

/-- The person argument of the mutating operations: a JS object whose
properties may each be absent. `service` and `services` are the
pseudo-fields that updatePerson and createPerson deliberately ignore. -/
structure PersonInput (σ : Type) where
  ucinetid : Option String
  firstName : Option String
  lastName : Option String
  middleName : Option String
  email : Option String
  photo : Option String
  service : Option (Permission σ)
  services : Option (List (String × Permission σ))
deriving DecidableEq, Repr

/-- JS truthiness of an optional string: `undefined` and the empty string
are falsy. -/
def truthy (o : Option String) : Bool :=
  match o with
  | none => false
  | some s => !(s == "")

section Keyed

variable {α : Type}

/-- Point lookup in a string-keyed list: first element whose key matches. -/
def keyedFind (key : α → String) (l : List α) (k : String) : Option α :=
  l.find? (fun x => key x == k)

/-- Overwrite every element holding key `k` with `v`, in place. -/
def keyedReplace (key : α → String) (l : List α) (k : String) (v : α) : List α :=
  l.map (fun x => if key x == k then v else x)

/-- Drop every element holding key `k`; dropping an absent key is the
identity, matching the DynamoDB `remove` action on a missing map key. -/
def keyedRemove (key : α → String) (l : List α) (k : String) : List α :=
  l.filter (fun x => !(key x == k))

/-- Store `v` under key `k`: replace the element already holding `k`, or
append `v` when the key is fresh. -/
def keyedSet (key : α → String) (l : List α) (k : String) (v : α) : List α :=
  if (keyedFind key l k).isSome then keyedReplace key l k v else l ++ [v]

end Keyed

/-- Key of a table row. -/
def recordKey (σ : Type) (r : PersonRecord σ) : String := r.ucinetid

/-- findPerson of model.js: a direct DynamoDB get on the `ucinetid` key,
with no normalization of the caller-supplied id. A miss resolves to the
absent item, never an error. -/
def findPerson {σ : Type} (t : Table σ) (ucinetid : String) : Option (PersonRecord σ) :=
  keyedFind (recordKey σ) t ucinetid

/-- The put that createPerson issues. -/
def putItem {σ : Type} (t : Table σ) (item : PersonRecord σ) : Table σ :=
  keyedSet (recordKey σ) t item.ucinetid item

/-- Lookup of one entry of the nested `_services` map. -/
def lookupService {σ : Type} (l : List (String × Permission σ)) (name : String) :
    Option (Permission σ) :=
  (keyedFind (fun kv => kv.1) l name).map (fun kv => kv.2)

/-- The FilterExpression `attribute_exists(#services.#serviceName)` of
scanPeople, evaluated on one row. -/
def hasService {σ : Type} (r : PersonRecord σ) (name : String) : Bool :=
  (keyedFind (fun kv => kv.1) r.services name).isSome

/-- The sentinel test of scanPeople: the regex `^all$` with the
case-insensitive flag. -/
def matchesAll (service : String) : Bool :=
  toLowerStr service == "all"

/-- One backend scan call plus the cursor-following recursion of
scanPeople: each call scans at most `n + 1` raw items, applies the filter
server side, and hands back a LastEvaluatedKey exactly when raw items
remain, upon which model.js re-issues the scan from that cursor and
concatenates the pages. -/
def scanPages {σ : Type} (pred : PersonRecord σ → Bool) (n : Nat) :
    List (PersonRecord σ) → List (PersonRecord σ)
  | [] => []
  | x :: xs =>
    if (List.drop n xs).isEmpty then
      (List.take (n + 1) (x :: xs)).filter pred
    else
      (List.take (n + 1) (x :: xs)).filter pred ++ scanPages pred n (List.drop n xs)
termination_by l => l.length
decreasing_by simp [List.length_drop]; omega

/-- scanPeople of model.js: no filter when the service argument matches
`^all$` case-insensitively, otherwise the server-side existence filter on
the nested `_services` key; the page size of the paginating backend is
`n + 1` raw items. -/
def scanPeople {σ : Type} (t : Table σ) (service : String) (n : Nat) :
    List (PersonRecord σ) :=
  if matchesAll service then
    scanPages (fun _ => true) n t
  else
    scanPages (fun r => hasService r service) n t

/-- createPerson of model.js: lowercases the id (a missing id throws a
TypeError first), writes the item built from the input - firstName and
lastName passed through unconditionally (an undefined value is stripped by
the document client), the optional fields only when truthy, `_services`
always the empty map - and resolves with the record re-read from the store
under the lowercased id. -/
def createPerson {σ : Type} (t : Table σ) (p : PersonInput σ) :
    Table σ × Except DbError (Option (PersonRecord σ)) :=
  match p.ucinetid with
  | none => (t, Except.error DbError.typeError)
  | some uid0 =>
    let uid := toLowerStr uid0
    let item : PersonRecord σ :=
      { ucinetid := uid
        firstName := p.firstName
        lastName := p.lastName
        middleName := if truthy p.middleName then p.middleName else none
        email := if truthy p.email then p.email else none
        photo := if truthy p.photo then p.photo else none
        services := [] }
    let t1 := putItem t item
    (t1, Except.ok (findPerson t1 uid))

/-- Number of updatable fields the input provides: every own property
except the excluded `ucinetid`, `service` and `services`. -/
def providedCount {σ : Type} (p : PersonInput σ) : Nat :=
  (if p.firstName.isSome then 1 else 0) +
  (if p.lastName.isSome then 1 else 0) +
  (if p.middleName.isSome then 1 else 0) +
  (if p.email.isSome then 1 else 0) +
  (if p.photo.isSome then 1 else 0)

/-- Effect of the set-expression updatePerson builds: each provided
updatable field is assigned, every other attribute is untouched. -/
def applyUpdate {σ : Type} (r : PersonRecord σ) (p : PersonInput σ) : PersonRecord σ :=
  { r with
    firstName := if p.firstName.isSome then p.firstName else r.firstName
    lastName := if p.lastName.isSome then p.lastName else r.lastName
    middleName := if p.middleName.isSome then p.middleName else r.middleName
    email := if p.email.isSome then p.email else r.email
    photo := if p.photo.isSome then p.photo else r.photo }

/-- The record an UpdateItem creates when the key held no record: the key
plus the set attributes only (in particular no `_services` map beyond the
empty one of this typed model). -/
def blankRecord (σ : Type) (uid : String) : PersonRecord σ :=
  { ucinetid := uid
    firstName := none
    lastName := none
    middleName := none
    email := none
    photo := none
    services := [] }

/-- updatePerson of model.js: builds `set f1 = :f1, ...` over exactly the
provided updatable fields and updates the item keyed by the id exactly as
given (no lowercasing). With zero provided fields the built request is the
malformed `set ` with an empty ExpressionAttributeValues map, which the
backend rejects; a missing id leaves the request without its key, equally
rejected. On success the record is re-read under the same id. -/
def updatePerson {σ : Type} (t : Table σ) (p : PersonInput σ) :
    Table σ × Except DbError (Option (PersonRecord σ)) :=
  match p.ucinetid with
  | none => (t, Except.error DbError.backendValidation)
  | some uid =>
    if providedCount p = 0 then
      (t, Except.error DbError.backendValidation)
    else
      let t1 :=
        match findPerson t uid with
        | some r => keyedReplace (recordKey σ) t uid (applyUpdate r p)
        | none => t ++ [applyUpdate (blankRecord σ uid) p]
      (t1, Except.ok (findPerson t1 uid))

/-- upsertPerson of model.js: looks the lowercased id up and dispatches to
updatePerson when a record exists, createPerson otherwise, both called on
the unmodified input. -/
def upsertPerson {σ : Type} (t : Table σ) (p : PersonInput σ) :
    Table σ × Except DbError (Option (PersonRecord σ)) :=
  match p.ucinetid with
  | none => (t, Except.error DbError.typeError)
  | some uid0 =>
    match findPerson t (toLowerStr uid0) with
    | some _ => updatePerson t p
    | none => createPerson t p

/-- setPermission of model.js: lowercases the id, throws the not-found
error when no record exists, otherwise issues
`set #services.#serviceName = :permission`, a full replace of the one
nested entry keyed by `permission.service` with the given value, and
resolves with the record re-read. -/
def setPermission {σ : Type} (t : Table σ) (ucinetid : String) (perm : Permission σ) :
    Table σ × Except DbError (Option (PersonRecord σ)) :=
  let uid := toLowerStr ucinetid
  match findPerson t uid with
  | none => (t, Except.error (DbError.notFound uid))
  | some r =>
    let r1 := { r with services := keyedSet (fun kv => kv.1) r.services perm.service (perm.service, perm) }
    let t1 := keyedReplace (recordKey σ) t uid r1
    (t1, Except.ok (findPerson t1 uid))

/-- removePermission of model.js: lowercases the id, throws the not-found
error when no record exists, otherwise issues
`remove #services.#serviceName` (a no-op when the nested key is absent)
and resolves with the record re-read. -/
def removePermission {σ : Type} (t : Table σ) (ucinetid : String) (service : String) :
    Table σ × Except DbError (Option (PersonRecord σ)) :=
  let uid := toLowerStr ucinetid
  match findPerson t uid with
  | none => (t, Except.error (DbError.notFound uid))
  | some r =>
    let r1 := { r with services := keyedRemove (fun kv => kv.1) r.services service }
    let t1 := keyedReplace (recordKey σ) t uid r1
    (t1, Except.ok (findPerson t1 uid))

/-- Concrete permission used by the instantiations below. -/
def permSvc1 : Permission Unit :=
  { service := "svc1", roles := ["admin"], settings := () }

/-- Concrete permission for a second service. -/
def permSvc2 : Permission Unit :=
  { service := "svc2", roles := ["viewer"], settings := () }

/-- Concrete permission whose service is literally named all. -/
def permAll : Permission Unit :=
  { service := "all", roles := [], settings := () }

/-- Stored person holding no service. -/
def recAda : PersonRecord Unit :=
  { ucinetid := "abc123", firstName := some "Ada", lastName := some "Lovelace",
    middleName := none, email := none, photo := none, services := [] }

/-- Stored person holding svc1. -/
def recBob : PersonRecord Unit :=
  { ucinetid := "bcd234", firstName := some "Bob", lastName := some "Byrne",
    middleName := none, email := none, photo := none,
    services := [("svc1", permSvc1)] }

/-- Stored person holding svc2. -/
def recCyd : PersonRecord Unit :=
  { ucinetid := "cde345", firstName := some "Cyd", lastName := some "Cole",
    middleName := none, email := none, photo := none,
    services := [("svc2", permSvc2)] }

/-- Stored person holding only the service literally named all. -/
def recAll : PersonRecord Unit :=
  { ucinetid := "def456", firstName := some "Dee", lastName := some "Dale",
    middleName := none, email := none, photo := none,
    services := [("all", permAll)] }

/-- A three-person store spanning several scan pages at small page sizes. -/
def exTable : Table Unit := [recAda, recBob, recCyd]

/-- Full creation input for the person with id abc123. -/
def inputAda : PersonInput Unit :=
  { ucinetid := some "abc123", firstName := some "Ada", lastName := some "Lovelace",
    middleName := none, email := none, photo := none, service := none, services := none }

/-- Input providing the id and nothing else. -/
def inputIdOnly : PersonInput Unit :=
  { ucinetid := some "abc123", firstName := none, lastName := none,
    middleName := none, email := none, photo := none, service := none, services := none }

/-- Input missing the required firstName. -/
def inputNoFirst : PersonInput Unit :=
  { ucinetid := some "newid", firstName := none, lastName := some "Smith",
    middleName := none, email := none, photo := none, service := none, services := none }

/-- Creation input with a mixed-case id, a provided middleName, an empty
email and no photo. -/
def inputCreate : PersonInput Unit :=
  { ucinetid := some "DfE456", firstName := some "Dot", lastName := some "Day",
    middleName := some "Mae", email := some "", photo := none, service := none, services := none }

section KeyedLemmas

variable {α : Type}

theorem keyedFind_some_key {key : α → String} {l : List α} {k : String} {x : α}
    (h : keyedFind key l k = some x) : key x = k := by
  have := List.find?_some h
  simpa using this

theorem keyedFind_replace_self (key : α → String) {l : List α} {k : String} {v : α}
    (hmem : (keyedFind key l k).isSome) (hv : key v = k) :
    keyedFind key (keyedReplace key l k v) k = some v := by
  have hvk : (key v == k) = true := by simp [hv]
  induction l with
  | nil => simp [keyedFind] at hmem
  | cons a l ih =>
    unfold keyedFind at hmem
    unfold keyedFind keyedReplace at ih ⊢
    rw [List.map_cons]
    by_cases ha : (key a == k) = true
    · rw [if_pos ha]
      simp only [List.find?_cons, hvk]
    · rw [if_neg ha]
      have ha2 : (key a == k) = false := by
        simpa only [Bool.not_eq_true] using ha
      simp only [List.find?_cons, ha2] at hmem ⊢
      exact ih hmem

theorem keyedFind_replace_other (key : α → String) {l : List α} {k j : String} {v : α}
    (hj : ¬(j = k)) (hv : key v = k) :
    keyedFind key (keyedReplace key l k v) j = keyedFind key l j := by
  have hvj : (key v == j) = false := by
    simp only [beq_eq_false_iff_ne, hv, ne_eq]
    intro h2
    exact hj h2.symm
  induction l with
  | nil => rfl
  | cons a l ih =>
    unfold keyedFind keyedReplace at ih ⊢
    rw [List.map_cons]
    by_cases ha : (key a == k) = true
    · have haj : (key a == j) = false := by
        have ha3 : key a = k := by simpa only [beq_iff_eq] using ha
        simp only [beq_eq_false_iff_ne, ha3, ne_eq]
        intro h3
        exact hj h3.symm
      rw [if_pos ha]
      simp only [List.find?_cons, hvj, haj]
      exact ih
    · rw [if_neg ha]
      rcases hb : (key a == j) with _ | _
      · simp only [List.find?_cons, hb]
        exact ih
      · simp only [List.find?_cons, hb]

theorem keyedFind_append_none {key : α → String} {l : List α} {k : String}
    (h : keyedFind key l k = none) (l2 : List α) :
    keyedFind key (l ++ l2) k = keyedFind key l2 k := by
  simp only [keyedFind] at h ⊢
  rw [List.find?_append, h, Option.none_or]

theorem keyedFind_set_self (key : α → String) (l : List α) {k : String} {v : α}
    (hv : key v = k) :
    keyedFind key (keyedSet key l k v) k = some v := by
  have hvk : (key v == k) = true := by simp [hv]
  unfold keyedSet
  by_cases hmem : (keyedFind key l k).isSome
  · rw [if_pos hmem]
    exact keyedFind_replace_self key hmem hv
  · rw [if_neg hmem]
    have hnone : keyedFind key l k = none := by
      rcases h2 : keyedFind key l k with _ | x
      · rfl
      · rw [h2] at hmem; simp at hmem
    rw [keyedFind_append_none hnone]
    unfold keyedFind
    simp only [List.find?_cons, hvk]

theorem keyedFind_set_other (key : α → String) (l : List α) {k j : String} {v : α}
    (hj : ¬(j = k)) (hv : key v = k) :
    keyedFind key (keyedSet key l k v) j = keyedFind key l j := by
  unfold keyedSet
  by_cases hmem : (keyedFind key l k).isSome
  · rw [if_pos hmem]
    exact keyedFind_replace_other key hj hv
  · rw [if_neg hmem]
    have h1 : (key v == j) = false := by
      simp only [beq_eq_false_iff_ne, hv, ne_eq]
      intro h2
      exact hj h2.symm
    unfold keyedFind
    rw [List.find?_append]
    simp only [List.find?_cons, h1, List.find?_nil, Option.or_none]

theorem keyedFind_remove_self (key : α → String) (l : List α) (k : String) :
    keyedFind key (keyedRemove key l k) k = none := by
  induction l with
  | nil => rfl
  | cons a l ih =>
    unfold keyedFind keyedRemove at ih ⊢
    rw [List.filter_cons]
    by_cases ha : (key a == k) = true
    · have hneg : ¬((!(key a == k)) = true) := by rw [ha]; simp
      rw [if_neg hneg]
      exact ih
    · have ha2 : (key a == k) = false := by
        simpa only [Bool.not_eq_true] using ha
      have hpos : (!(key a == k)) = true := by rw [ha2]; rfl
      rw [if_pos hpos]
      simp only [List.find?_cons, ha2]
      exact ih

theorem keyedFind_remove_other (key : α → String) (l : List α) {k j : String}
    (hj : ¬(j = k)) :
    keyedFind key (keyedRemove key l k) j = keyedFind key l j := by
  induction l with
  | nil => rfl
  | cons a l ih =>
    unfold keyedFind keyedRemove at ih ⊢
    rw [List.filter_cons]
    by_cases ha : (key a == k) = true
    · have haj : (key a == j) = false := by
        have ha3 : key a = k := by simpa only [beq_iff_eq] using ha
        simp only [beq_eq_false_iff_ne, ha3, ne_eq]
        intro h3
        exact hj h3.symm
      have hneg : ¬((!(key a == k)) = true) := by rw [ha]; simp
      rw [if_neg hneg]
      simp only [List.find?_cons, haj]
      exact ih
    · have ha2 : (key a == k) = false := by
        simpa only [Bool.not_eq_true] using ha
      have hpos : (!(key a == k)) = true := by rw [ha2]; rfl
      rw [if_pos hpos]
      by_cases hb : (key a == j) = true
      · simp only [List.find?_cons, hb]
      · have hb2 : (key a == j) = false := by
          simpa only [Bool.not_eq_true] using hb
        simp only [List.find?_cons, hb2]
        exact ih

theorem keyedRemove_idem (key : α → String) (l : List α) (k : String) :
    keyedRemove key (keyedRemove key l k) k = keyedRemove key l k := by
  simp [keyedRemove, List.filter_filter]

theorem keyedReplace_twice (key : α → String) (l : List α) {k : String} {v : α}
    (hv : key v = k) :
    keyedReplace key (keyedReplace key l k v) k v = keyedReplace key l k v := by
  simp only [keyedReplace, List.map_map]
  apply List.map_congr_left
  intro a _
  by_cases ha : key a = k
  · simp [Function.comp, ha, hv]
  · have ha2 : (key a == k) = false := by simpa using ha
    simp [Function.comp, ha2]

end KeyedLemmas

theorem truthy_filter_some_iff (o : Option String) (v : String) :
    (if truthy o then o else none) = some v ↔ (o = some v ∧ ¬(v = "")) := by
  split
  · next h =>
    rcases o with _ | s
    · simp [truthy] at h
    · have hs : ¬(s = "") := by
        simpa [truthy] using h
      constructor
      · intro h2
        refine ⟨h2, ?_⟩
        have h3 : s = v := by injection h2
        rw [← h3]
        exact hs
      · intro h2
        exact h2.1
  · next h =>
    constructor
    · intro h2
      simp at h2
    · rintro ⟨h1, h2⟩
      subst h1
      have hv : v = "" := by
        by_contra hv2
        apply h
        simp [truthy, hv2]
      exact absurd hv h2

theorem scanPages_eq_filter_aux {σ : Type} (pred : PersonRecord σ → Bool) (n : Nat) :
    ∀ (N : Nat) (l : List (PersonRecord σ)), l.length ≤ N →
      scanPages pred n l = l.filter pred := by
  intro N
  induction N with
  | zero =>
    intro l hl
    have : l = [] := by
      cases l
      · rfl
      · simp at hl
    subst this
    rw [scanPages.eq_1]
    rfl
  | succ N ih =>
    intro l hl
    match l with
    | [] =>
      rw [scanPages.eq_1]
      rfl
    | x :: xs =>
      rw [scanPages.eq_2]
      by_cases hrem : (List.drop n xs).isEmpty
      · rw [if_pos hrem]
        have hnil : List.drop n xs = [] := List.isEmpty_iff.mp hrem
        have hlen : (x :: xs).length ≤ n + 1 := by
          have := List.drop_eq_nil_iff.mp hnil
          simpa using Nat.succ_le_succ this
        rw [List.take_of_length_le hlen]
      · rw [if_neg hrem]
        have hdrop : List.drop n xs = List.drop (n + 1) (x :: xs) := rfl
        have hlen : (List.drop n xs).length ≤ N := by
          simp only [List.length_drop]
          have : xs.length ≤ N := by simpa using hl
          omega
        rw [ih _ hlen, hdrop, ← List.filter_append, List.take_append_drop]

theorem scanPages_eq_filter {σ : Type} (pred : PersonRecord σ → Bool) (n : Nat)
    (l : List (PersonRecord σ)) :
    scanPages pred n l = l.filter pred :=
  scanPages_eq_filter_aux pred n l.length l (Nat.le_refl _)

/-- C1 counterexample: after the person is created as abc123, findPerson
called with the casing ABC123 misses the record that findPerson called
with abc123 returns, because findPerson uses the caller-supplied id as the
storage key without lowercasing it; the claim that every public key
operation, find included, normalizes the id is therefore false. -/
theorem findPerson_mixed_case_cex :
    findPerson (createPerson ([] : Table Unit) inputAda).1 "ABC123" = none ∧
    ¬(findPerson (createPerson ([] : Table Unit) inputAda).1 "abc123" = none) := by
  decide

/-- C1 amended: setPermission and removePermission lowercase the
caller-supplied id before using it as the storage key, so two ids that
agree after lowercasing give identical results; upsertPerson lowercases
the id only for its existence lookup and hands the unmodified input to the
dispatched operation; findPerson is a direct lookup under the id exactly
as given. -/
theorem permission_ops_normalize_amended (σ : Type) (t : Table σ)
    (id1 id2 : String) (h : toLowerStr id1 = toLowerStr id2) :
    (∀ perm : Permission σ, setPermission t id1 perm = setPermission t id2 perm) ∧
    (∀ s : String, removePermission t id1 s = removePermission t id2 s) ∧
    (∀ (p : PersonInput σ) (uid : String), p.ucinetid = some uid →
      upsertPerson t p =
        match findPerson t (toLowerStr uid) with
        | some _ => updatePerson t p
        | none => createPerson t p) ∧
    (∀ k : String, findPerson t k = List.find? (fun r => r.ucinetid == k) t) := by
  refine ⟨?_, ?_, ?_, ?_⟩
  · intro perm
    unfold setPermission
    rw [h]
  · intro s
    unfold removePermission
    rw [h]
  · intro p uid hp
    simp only [upsertPerson, hp]
  · intro k
    rfl

/-- C1 amended witness: the two casings ABC123 and abc123 give identical
setPermission and removePermission results on the example store. -/
theorem permission_ops_normalize_amended_witness :
    setPermission exTable "ABC123" permSvc1 = setPermission exTable "abc123" permSvc1 ∧
    removePermission exTable "ABC123" "svc1" = removePermission exTable "abc123" "svc1" := by
  have h := permission_ops_normalize_amended Unit exTable "ABC123" "abc123" (by decide)
  exact ⟨h.1 permSvc1, h.2.1 "svc1"⟩

/-- C2: upsertPerson is exactly the lookup-then-dispatch of model.js: when
no record exists under the lowercased id it equals createPerson on the
same input, when one exists it equals updatePerson on the same input,
whatever subset of fields the input provides; state and result coincide,
so upsert adds no behaviour beyond the dispatch. -/
theorem upsertPerson_dispatch (σ : Type) (t : Table σ) (p : PersonInput σ)
    (uid : String) (h : p.ucinetid = some uid) :
    (findPerson t (toLowerStr uid) = none → upsertPerson t p = createPerson t p) ∧
    (∀ r : PersonRecord σ, findPerson t (toLowerStr uid) = some r →
      upsertPerson t p = updatePerson t p) := by
  constructor
  · intro h2
    simp only [upsertPerson, h, h2]
  · intro r h2
    simp only [upsertPerson, h, h2]

/-- C2 witness: on the empty store upsert coincides with create, and on
the example store holding abc123 it coincides with update. -/
theorem upsertPerson_dispatch_witness :
    upsertPerson ([] : Table Unit) inputAda = createPerson ([] : Table Unit) inputAda ∧
    upsertPerson exTable inputIdOnly = updatePerson exTable inputIdOnly := by
  constructor
  · exact (upsertPerson_dispatch Unit [] inputAda "abc123" rfl).1 rfl
  · exact (upsertPerson_dispatch Unit exTable inputIdOnly "abc123" rfl).2 recAda (by decide)

/-- C6: setPermission and removePermission on an id whose lowercasing owns
no record reject with the deliberate not-found error and leave the store
exactly as it was - the throw happens before any update request is
issued. -/
theorem permission_ops_missing_person_no_write (σ : Type) (t : Table σ) (id : String)
    (perm : Permission σ) (s : String) (h : findPerson t (toLowerStr id) = none) :
    setPermission t id perm = (t, Except.error (DbError.notFound (toLowerStr id))) ∧
    removePermission t id s = (t, Except.error (DbError.notFound (toLowerStr id))) := by
  constructor
  · simp only [setPermission, h]
  · simp only [removePermission, h]

/-- C6 witness: on the example store the id Ghost9 owns no record and both
permission operations reject with the not-found error, state unchanged. -/
theorem permission_ops_missing_person_no_write_witness :
    setPermission exTable "Ghost9" permSvc1
      = (exTable, Except.error (DbError.notFound (toLowerStr "Ghost9"))) ∧
    removePermission exTable "Ghost9" "svc1"
      = (exTable, Except.error (DbError.notFound (toLowerStr "Ghost9"))) :=
  permission_ops_missing_person_no_write Unit exTable "Ghost9" permSvc1 "svc1" (by decide)

/-- C8 counterexample: the person abc123 exists in the example store, yet
updatePerson given only the id rejects with the backend validation error
for the malformed empty set-expression, instead of succeeding as a no-op
that returns the current record. -/
theorem updatePerson_empty_update_cex :
    ¬(findPerson exTable "abc123" = none) ∧
    updatePerson exTable inputIdOnly = (exTable, Except.error DbError.backendValidation) := by
  constructor
  · decide
  · rfl

/-- C8 amended: updatePerson with zero provided updatable fields builds
the malformed request - the set clause with no actions and the empty
attribute-value map - which the backend rejects: the call fails with a
validation error and leaves the store unchanged, rather than succeeding as
a no-op. -/
theorem updatePerson_empty_update_amended (σ : Type) (t : Table σ) (p : PersonInput σ)
    (h : providedCount p = 0) :
    updatePerson t p = (t, Except.error DbError.backendValidation) := by
  rcases hp : p.ucinetid with _ | uid
  · simp only [updatePerson, hp]
  · simp only [updatePerson, hp]
    rw [if_pos h]

/-- C8 amended witness at the concrete id-only input. -/
theorem updatePerson_empty_update_amended_witness :
    updatePerson exTable inputIdOnly = (exTable, Except.error DbError.backendValidation) :=
  updatePerson_empty_update_amended Unit exTable inputIdOnly (by decide)

/-- C9 evaluation at the failing input: createPerson applied to an input
missing the required firstName performs no validation - the put proceeds
with the undefined attribute stripped by the document client, the call
resolves successfully, and the store afterwards holds a record that lacks
firstName, contradicting the claimed ValidationFailure-and-no-write. -/
theorem createPerson_missing_firstName_eval :
    ∃ item : PersonRecord Unit,
      createPerson ([] : Table Unit) inputNoFirst = ([item], Except.ok (some item)) ∧
      item.firstName = none ∧ ¬(findPerson [item] "newid" = none) := by
  refine ⟨{ ucinetid := "newid", firstName := none, lastName := some "Smith",
            middleName := none, email := none, photo := none, services := [] },
    ?_, rfl, ?_⟩
  · rfl
  · decide

/-- C3: scanPeople resolves only after following the continuation cursor
across as many backend pages as the table spans, and for every page size
the merged result has no duplicate and no omission: the sentinel (matched
case-insensitively) yields every stored person, and a concrete service
name yields exactly the persons whose services map holds that key, the
existence filter being applied within each backend page. -/
theorem scanPeople_complete (σ : Type) (t : Table σ) (s : String) (n : Nat) :
    (matchesAll s = true → scanPeople t s n = t) ∧
    (matchesAll s = false → scanPeople t s n = t.filter (fun r => hasService r s)) := by
  constructor
  · intro h
    unfold scanPeople
    rw [if_pos h, scanPages_eq_filter]
    exact List.filter_true t
  · intro h
    have h2 : ¬(matchesAll s = true) := by rw [h]; simp
    unfold scanPeople
    rw [if_neg h2, scanPages_eq_filter]

/-- C3 witness: with page size one the three-person store spans three
pages; the sentinel in upper case returns all three persons and the
concrete name svc1 returns exactly its one holder. -/
theorem scanPeople_complete_witness :
    scanPeople exTable "ALL" 0 = exTable ∧
    scanPeople exTable "svc1" 0 = [recBob] := by
  constructor
  · exact (scanPeople_complete Unit exTable "ALL" 0).1 (by decide)
  · have h := (scanPeople_complete Unit exTable "svc1" 0).2 (by decide)
    rw [h]
    decide

/-- C4: createPerson stores a record keyed by the lowercased id whose
services map is present and empty, which carries an optional field exactly
when the caller supplied it non-empty (never a null or empty placeholder),
and resolves with the record freshly read back from the store after the
write rather than an echo of the input. -/
theorem createPerson_spec (σ : Type) (t : Table σ) (p : PersonInput σ) (uid : String)
    (h : p.ucinetid = some uid) (_hf : p.firstName.isSome) (_hl : p.lastName.isSome) :
    ∃ item : PersonRecord σ,
      createPerson t p = (putItem t item, Except.ok (some item)) ∧
      findPerson (putItem t item) (toLowerStr uid) = some item ∧
      item.ucinetid = toLowerStr uid ∧
      item.services = [] ∧
      item.firstName = p.firstName ∧
      item.lastName = p.lastName ∧
      (∀ v : String, item.middleName = some v ↔ (p.middleName = some v ∧ ¬(v = ""))) ∧
      (∀ v : String, item.email = some v ↔ (p.email = some v ∧ ¬(v = ""))) ∧
      (∀ v : String, item.photo = some v ↔ (p.photo = some v ∧ ¬(v = ""))) := by
  have hfind : ∀ item : PersonRecord σ, item.ucinetid = toLowerStr uid →
      findPerson (putItem t item) (toLowerStr uid) = some item := by
    intro item hkey
    unfold findPerson putItem
    rw [hkey]
    exact keyedFind_set_self (recordKey σ) t hkey
  refine ⟨{ ucinetid := toLowerStr uid, firstName := p.firstName, lastName := p.lastName,
            middleName := if truthy p.middleName then p.middleName else none,
            email := if truthy p.email then p.email else none,
            photo := if truthy p.photo then p.photo else none, services := [] },
    ?_, hfind _ rfl, rfl, rfl, rfl, rfl, ?_, ?_, ?_⟩
  · simp only [createPerson, h]
    rw [hfind _ rfl]
  · intro v
    exact truthy_filter_some_iff p.middleName v
  · intro v
    exact truthy_filter_some_iff p.email v
  · intro v
    exact truthy_filter_some_iff p.photo v

/-- C4 witness at a mixed-case creation input providing a middleName, an
empty email and no photo. -/
theorem createPerson_spec_witness :
    ∃ item : PersonRecord Unit,
      createPerson ([] : Table Unit) inputCreate = (putItem [] item, Except.ok (some item)) ∧
      findPerson (putItem ([] : Table Unit) item) (toLowerStr "DfE456") = some item ∧
      item.ucinetid = toLowerStr "DfE456" ∧
      item.services = [] ∧
      item.firstName = inputCreate.firstName ∧
      item.lastName = inputCreate.lastName ∧
      (∀ v : String, item.middleName = some v ↔ (inputCreate.middleName = some v ∧ ¬(v = ""))) ∧
      (∀ v : String, item.email = some v ↔ (inputCreate.email = some v ∧ ¬(v = ""))) ∧
      (∀ v : String, item.photo = some v ↔ (inputCreate.photo = some v ∧ ¬(v = ""))) :=
  createPerson_spec Unit [] inputCreate "DfE456" rfl (by decide) (by decide)

/-- C5: for an existing person, setPermission replaces the single nested
entry keyed by the service of the given permission with exactly that
permission value, and leaves every other entry of the services map, every
scalar field of the person, and every other record of the table unchanged;
the call resolves with the record re-read after the write. -/
theorem setPermission_replaces_single_entry (σ : Type) (t : Table σ) (id : String)
    (perm : Permission σ) (r : PersonRecord σ)
    (h : findPerson t (toLowerStr id) = some r) :
    ∃ r1 : PersonRecord σ,
      setPermission t id perm
        = (keyedReplace (recordKey σ) t (toLowerStr id) r1, Except.ok (some r1)) ∧
      lookupService r1.services perm.service = some perm ∧
      (∀ k : String, ¬(k = perm.service) →
        lookupService r1.services k = lookupService r.services k) ∧
      r1.ucinetid = r.ucinetid ∧ r1.firstName = r.firstName ∧ r1.lastName = r.lastName ∧
      r1.middleName = r.middleName ∧ r1.email = r.email ∧ r1.photo = r.photo ∧
      (∀ k : String, ¬(k = toLowerStr id) →
        findPerson (keyedReplace (recordKey σ) t (toLowerStr id) r1) k = findPerson t k) ∧
      findPerson (keyedReplace (recordKey σ) t (toLowerStr id) r1) (toLowerStr id) = some r1 := by
  have hkey : r.ucinetid = toLowerStr id := keyedFind_some_key h
  have hmem : (keyedFind (recordKey σ) t (toLowerStr id)).isSome := by
    unfold findPerson at h
    rw [h]
    rfl
  refine ⟨{ r with services := keyedSet (fun kv => kv.1) r.services perm.service (perm.service, perm) },
    ?_, ?_, ?_, rfl, rfl, rfl, rfl, rfl, rfl, ?_, ?_⟩
  · have hfind1 : findPerson
        (keyedReplace (recordKey σ) t (toLowerStr id)
          { r with services := keyedSet (fun kv => kv.1) r.services perm.service (perm.service, perm) })
        (toLowerStr id)
        = some { r with services := keyedSet (fun kv => kv.1) r.services perm.service (perm.service, perm) } :=
      keyedFind_replace_self (recordKey σ) hmem hkey
    simp only [setPermission, h]
    rw [hfind1]
  · show Option.map (fun kv => kv.2)
        (keyedFind (fun kv => kv.1)
          (keyedSet (fun kv => kv.1) r.services perm.service (perm.service, perm))
          perm.service)
        = some perm
    rw [@keyedFind_set_self (String × Permission σ) (fun kv => kv.1) r.services
      perm.service (perm.service, perm) rfl]
    rfl
  · intro k hk
    show Option.map (fun kv => kv.2)
        (keyedFind (fun kv => kv.1)
          (keyedSet (fun kv => kv.1) r.services perm.service (perm.service, perm)) k)
        = lookupService r.services k
    rw [@keyedFind_set_other (String × Permission σ) (fun kv => kv.1) r.services
      perm.service k (perm.service, perm) hk rfl]
    rfl
  · intro k hk
    exact keyedFind_replace_other (recordKey σ) hk hkey
  · exact keyedFind_replace_self (recordKey σ) hmem hkey

/-- C5 witness: granting svc1 to the stored person abc123 yields exactly
the svc1 entry with the given roles and settings, everything else
untouched. -/
theorem setPermission_replaces_single_entry_witness :
    ∃ r1 : PersonRecord Unit,
      setPermission exTable "abc123" permSvc1
        = (keyedReplace (recordKey Unit) exTable (toLowerStr "abc123") r1, Except.ok (some r1)) ∧
      lookupService r1.services permSvc1.service = some permSvc1 ∧
      (∀ k : String, ¬(k = permSvc1.service) →
        lookupService r1.services k = lookupService recAda.services k) ∧
      r1.ucinetid = recAda.ucinetid ∧ r1.firstName = recAda.firstName ∧
      r1.lastName = recAda.lastName ∧
      r1.middleName = recAda.middleName ∧ r1.email = recAda.email ∧ r1.photo = recAda.photo ∧
      (∀ k : String, ¬(k = toLowerStr "abc123") →
        findPerson (keyedReplace (recordKey Unit) exTable (toLowerStr "abc123") r1) k
          = findPerson exTable k) ∧
      findPerson (keyedReplace (recordKey Unit) exTable (toLowerStr "abc123") r1)
        (toLowerStr "abc123") = some r1 :=
  setPermission_replaces_single_entry Unit exTable "abc123" permSvc1 recAda (by decide)

/-- C7: for an existing person, removePermission yields a record whose
services map lacks the removed key while every other entry, every scalar
field, and every other table record are unchanged; when the key was
already absent the call still succeeds, so issuing the same removal twice
succeeds both times with identical state and result. -/
theorem removePermission_noop_on_absent (σ : Type) (t : Table σ) (id s : String)
    (r : PersonRecord σ) (h : findPerson t (toLowerStr id) = some r) :
    ∃ (t1 : Table σ) (r1 : PersonRecord σ),
      removePermission t id s = (t1, Except.ok (some r1)) ∧
      lookupService r1.services s = none ∧
      (∀ k : String, ¬(k = s) → lookupService r1.services k = lookupService r.services k) ∧
      r1.ucinetid = r.ucinetid ∧ r1.firstName = r.firstName ∧ r1.lastName = r.lastName ∧
      r1.middleName = r.middleName ∧ r1.email = r.email ∧ r1.photo = r.photo ∧
      (∀ k : String, ¬(k = toLowerStr id) → findPerson t1 k = findPerson t k) ∧
      removePermission t1 id s = (t1, Except.ok (some r1)) := by
  have hkey : r.ucinetid = toLowerStr id := keyedFind_some_key h
  have hmem : (keyedFind (recordKey σ) t (toLowerStr id)).isSome := by
    unfold findPerson at h
    rw [h]
    rfl
  have hfind1 : findPerson
      (keyedReplace (recordKey σ) t (toLowerStr id)
        { r with services := keyedRemove (fun kv => kv.1) r.services s })
      (toLowerStr id)
      = some { r with services := keyedRemove (fun kv => kv.1) r.services s } :=
    keyedFind_replace_self (recordKey σ) hmem hkey
  refine ⟨keyedReplace (recordKey σ) t (toLowerStr id)
      { r with services := keyedRemove (fun kv => kv.1) r.services s },
    { r with services := keyedRemove (fun kv => kv.1) r.services s },
    ?_, ?_, ?_, rfl, rfl, rfl, rfl, rfl, rfl, ?_, ?_⟩
  · simp only [removePermission, h]
    rw [hfind1]
  · unfold lookupService
    rw [keyedFind_remove_self (fun kv => kv.1) r.services s]
    rfl
  · intro k hk
    unfold lookupService
    rw [keyedFind_remove_other (fun kv => kv.1) r.services hk]
  · intro k hk
    exact keyedFind_replace_other (recordKey σ) hk hkey
  · have hserv : keyedRemove (fun kv => kv.1)
        (keyedRemove (fun kv => kv.1) r.services s) s
        = keyedRemove (fun kv => kv.1) r.services s :=
      keyedRemove_idem (fun kv => kv.1) r.services s
    have hv1 : recordKey σ { r with services := keyedRemove (fun kv => kv.1) r.services s }
        = toLowerStr id := hkey
    simp only [removePermission, hfind1]
    rw [hserv]
    rw [@keyedReplace_twice (PersonRecord σ) (recordKey σ) t (toLowerStr id)
      { r with services := keyedRemove (fun kv => kv.1) r.services s } hv1]
    rw [hfind1]

/-- C7 witness: removing svc9, which the stored person abc123 does not
hold, succeeds and doing it twice succeeds with the same state and
result. -/
theorem removePermission_noop_on_absent_witness :
    ∃ (t1 : Table Unit) (r1 : PersonRecord Unit),
      removePermission exTable "abc123" "svc9" = (t1, Except.ok (some r1)) ∧
      lookupService r1.services "svc9" = none ∧
      (∀ k : String, ¬(k = "svc9") →
        lookupService r1.services k = lookupService recAda.services k) ∧
      r1.ucinetid = recAda.ucinetid ∧ r1.firstName = recAda.firstName ∧
      r1.lastName = recAda.lastName ∧
      r1.middleName = recAda.middleName ∧ r1.email = recAda.email ∧ r1.photo = recAda.photo ∧
      (∀ k : String, ¬(k = toLowerStr "abc123") → findPerson t1 k = findPerson exTable k) ∧
      removePermission t1 "abc123" "svc9" = (t1, Except.ok (some r1)) :=
  removePermission_noop_on_absent Unit exTable "abc123" "svc9" recAda (by decide)

/-- C10: every input matching the sentinel regardless of casing disables
the filter so scanPeople returns every stored person; consequently no
input computes the selection of the persons holding a permission for a
service literally named all: for every input and page size there is a
store on which the scan result differs from that selection. -/
theorem scanPeople_all_sentinel_unreachable :
    (∀ (σ : Type) (t : Table σ) (s : String) (n : Nat),
      matchesAll s = true → scanPeople t s n = t) ∧
    (∀ (s : String) (n : Nat), ∃ t : Table Unit,
      ¬(scanPeople t s n = t.filter (fun r => hasService r "all"))) := by
  constructor
  · intro σ t s n h
    unfold scanPeople
    rw [if_pos h, scanPages_eq_filter]
    exact List.filter_true t
  · intro s n
    by_cases hall : matchesAll s = true
    · refine ⟨[recAda], ?_⟩
      have h1 : scanPeople [recAda] s n = [recAda] := by
        unfold scanPeople
        rw [if_pos hall, scanPages_eq_filter]
        exact List.filter_true _
      have h2 : List.filter (fun r => hasService r "all") [recAda] = [] := by decide
      rw [h1, h2]
      simp
    · refine ⟨[recAll], ?_⟩
      have hall2 : matchesAll s = false := by
        simpa only [Bool.not_eq_true] using hall
      have hs : ¬(s = "all") := by
        intro hcontra
        rw [hcontra] at hall2
        exact absurd hall2 (by decide)
      have hbeq : (("all" : String) == s) = false := by
        simp only [beq_eq_false_iff_ne, ne_eq]
        intro h3
        exact hs h3.symm
      have hsv : hasService recAll s = false := by
        show (List.find? (fun kv => kv.1 == s) [("all", permAll)]).isSome = false
        simp only [List.find?_cons, hbeq, List.find?_nil]
        rfl
      have h1 : scanPeople [recAll] s n = [] := by
        unfold scanPeople
        rw [if_neg hall, scanPages_eq_filter]
        simp only [List.filter_cons, hsv]
        rfl
      have h2 : List.filter (fun r => hasService r "all") [recAll] = [recAll] := by decide
      rw [h1, h2]
      simp

/-- C10 witness: the sentinel casing All returns the whole example store,
and for the concrete input svc1 a store exists on which the result is not
the set of holders of a service named all. -/
theorem scanPeople_all_sentinel_unreachable_witness :
    scanPeople exTable "All" 0 = exTable ∧
    ∃ t : Table Unit, ¬(scanPeople t "svc1" 0 = t.filter (fun r => hasService r "all")) := by
  constructor
  · exact scanPeople_all_sentinel_unreachable.1 Unit exTable "All" 0 (by decide)
  · exact scanPeople_all_sentinel_unreachable.2 "svc1" 0

end EduPeople
